import Mathlib

/-!
Verification of `scrape_avif_images.py`, a Selenium script that scrolls a
page and collects unique `.avif` image URLs from `<img>` `src` attributes and
inline `style` attributes.

The shallow embedding below translates the script's pure decision logic:

* the substring test `".avif" in s` (`hasSub`);
* the regex extraction
  `re.findall(r'url\(["\x27]?([^"\x27]+\.avif[^"\x27]*)["\x27]?\)', style)`
  as a backtracking matcher specialised to this pattern (`findAvifUrls`),
  with Python's leftmost, greedy, non-overlapping `findall` semantics;
* the set accumulation (`addUrl`, `scanImgs`, `scanStyles`, `scanPass`),
  where the Python `set` is represented as a duplicate-free list in
  insertion order;
* the scroll loop with its `last_count` / `scroll_attempts` bookkeeping,
  the `no_new_images_threshold` break, the `max_scroll_attempts` head check
  and the bottom-of-page extra scroll, instrumented with an event trace for
  the sleeps and scrolls (`stepIter`, `runLoop`); the loop is written with
  explicit fuel because a page that keeps producing fresh URLs makes it run
  unboundedly;
* the `try ... except ... finally` wrapper returning `[]` on any exception
  and quitting the driver exactly once (`scrape_avif_images`), and the
  driver initialisation fallback Chrome → Firefox → `sys.exit(1)`
  (`acquireEngine`, `mainRun`).

A page's observable behaviour during one loop iteration is a `Pass`: the
`src` attributes of the `img` elements, the `style` attributes of the
elements matched by `//*[@style]`, and the three scroll geometry values the
script reads back.  A whole run's behaviour is a function `Nat → Pass`
(or `Nat → Except Unit Pass` when scanning may raise).
-/

/-- The double-quote character (written via its code point to keep the
character literal unambiguous). -/
def dquote : Char := Char.ofNat 34

/-- The single-quote character. -/
def squote : Char := Char.ofNat 39

/-- Membership in the regex character class `["\x27]`; its complement is the
class `[^"\x27]`. -/
def isQuote (c : Char) : Bool := c == dquote || c == squote

/-- The extension marker `.avif` as a character list. -/
def avif : List Char := ".avif".data

/-- The literal `url(` that opens a CSS url reference. -/
def urlOpen : List Char := "url(".data

/-- Python's substring test `pat in s` on character lists. -/
def hasSub (pat : List Char) : List Char → Bool
  | [] => pat.isEmpty
  | c :: cs => pat.isPrefixOf (c :: cs) || hasSub pat cs

/-- Python's substring test `pat in s` on strings. -/
def strContains (pat : List Char) (s : String) : Bool := hasSub pat s.data

/-- Length of the maximal prefix of non-quote characters: how much the greedy
`[^"\x27]+` / `[^"\x27]*` pieces grab before backtracking. -/
def nonQuoteRun : List Char → Nat
  | [] => 0
  | c :: cs => if isQuote c then 0 else nonQuoteRun cs + 1

/-- Match the tail `["\x27]?\)` of the pattern: an optional (greedy) quote
followed by a literal `)`.  Returns the remainder after the match. -/
def tryClose : List Char → Option (List Char)
  | [] => none
  | c :: rest =>
    if isQuote c then
      match rest with
      | c2 :: rest2 => if c2 == ')' then some rest2 else none
      | [] => none
    else if c == ')' then some rest else none

/-- Backtracking search for the `[^"\x27]*["\x27]?\)` part after `.avif`:
greedy, so lengths are tried from `k` (initially the maximal non-quote run)
down to `0`.  Returns the text captured by `[^"\x27]*` and the remainder. -/
def tryStar (t : List Char) : Nat → Option (List Char × List Char)
  | 0 =>
    match tryClose t with
    | some r => some ([], r)
    | none => none
  | k + 1 =>
    match tryClose (t.drop (k + 1)) with
    | some r => some (t.take (k + 1), r)
    | none => tryStar t k

/-- Backtracking search for `[^"\x27]+\.avif[^"\x27]*["\x27]?\)`: the greedy
`+` tries lengths from `ℓ` (initially the maximal non-quote run) down to `1`.
Returns the texts captured before and after `.avif` and the remainder. -/
def tryPlus (t : List Char) : Nat → Option (List Char × List Char × List Char)
  | 0 => none
  | l + 1 =>
    if avif.isPrefixOf (t.drop (l + 1)) then
      let t2 := (t.drop (l + 1)).drop avif.length
      match tryStar t2 (nonQuoteRun t2) with
      | some (post, rest) => some (t.take (l + 1), post, rest)
      | none => tryPlus t l
    else tryPlus t l

/-- Match the capture group and pattern tail at the start of `t`; on success
return the captured group `[^"\x27]+\.avif[^"\x27]*` and the remainder. -/
def matchBody (t : List Char) : Option (List Char × List Char) :=
  match tryPlus t (nonQuoteRun t) with
  | some (pre, post, rest) => some (pre ++ avif ++ post, rest)
  | none => none

/-- After the literal `url(`: the optional opening quote `["\x27]?` is
greedy, so the branch consuming it is tried before the branch that does
not. -/
def matchAfterOpen : List Char → Option (List Char × List Char)
  | [] => none
  | c :: t2 =>
    if isQuote c then
      match matchBody t2 with
      | some r => some r
      | none => matchBody (c :: t2)
    else matchBody (c :: t2)

/-- Match the whole pattern `url\(["\x27]?([^"\x27]+\.avif[^"\x27]*)["\x27]?\)`
at the start of `t`: the literal `url(`, then the rest. -/
def matchHere (t : List Char) : Option (List Char × List Char) :=
  if urlOpen.isPrefixOf t then matchAfterOpen (t.drop urlOpen.length)
  else none

/-- Scanning of `re.findall`: try a match at each position, emit the captured
group and resume after the match, otherwise slide one character.  `fuel`
bounds the scan; every step consumes at least one character, so fuel equal
to the string length is never exhausted early. -/
def scanFind : Nat → List Char → List (List Char)
  | 0, _ => []
  | _, [] => []
  | fuel + 1, c :: cs =>
    match matchHere (c :: cs) with
    | some (g, rest) => g :: scanFind fuel rest
    | none => scanFind fuel cs

/-- All groups captured by
`re.findall(r'url\(["\x27]?([^"\x27]+\.avif[^"\x27]*)["\x27]?\)', s)`. -/
def findAvifUrls (s : List Char) : List (List Char) := scanFind s.length s

/-- The `re.findall` call of the script, on strings. -/
def reFindAll (style : String) : List String :=
  (findAvifUrls style.data).map String.mk

/-- One observable page state during a loop iteration: `imgs` are the `src`
attributes of the `img` elements (`none` when `get_attribute` returns
`None`), `styles` are the `style` attributes of the elements matched by the
XPath `//*[@style]`, and the three integers are what
`window.pageYOffset`, `document.body.scrollHeight` and `window.innerHeight`
evaluate to in this iteration. -/
structure Pass where
  imgs : List (Option String)
  styles : List (Option String)
  scrollPos : Int
  pageHeight : Int
  windowHeight : Int
deriving DecidableEq

/-- The effect of `image_urls.add(u)` on the insertion-ordered duplicate-free list that
represents the Python set. -/
def addUrl (urls : List String) (u : String) : List String :=
  if u ∈ urls then urls else urls ++ [u]

/-- Add every URL of a `findall` result, left to right. -/
def addUrls (urls : List String) : List String → List String
  | [] => urls
  | u :: us => addUrls (addUrl urls u) us

/-- The img-element scan: `for img in images: src = img.get_attribute("src");
if src and ".avif" in src: image_urls.add(src)`.  A `none` attribute and the
empty string (falsy in Python) are skipped. -/
def scanImgs : List (Option String) → List String → List String
  | [], urls => urls
  | none :: rest, urls => scanImgs rest urls
  | some src :: rest, urls =>
    if src.length != 0 && strContains avif src then
      scanImgs rest (addUrl urls src)
    else scanImgs rest urls

/-- The inline-style scan: `for elem in elements_with_bg: style =
elem.get_attribute("style"); if style and ".avif" in style: urls =
re.findall(...); for url in urls: image_urls.add(url)`. -/
def scanStyles : List (Option String) → List String → List String
  | [], urls => urls
  | none :: rest, urls => scanStyles rest urls
  | some style :: rest, urls =>
    if style.length != 0 && strContains avif style then
      scanStyles rest (addUrls urls (reFindAll style))
    else scanStyles rest urls

/-- Both scans of one loop iteration, in source order: img elements first,
then styled elements. -/
def scanPass (p : Pass) (urls : List String) : List String :=
  scanStyles p.styles (scanImgs p.imgs urls)

/-- The constant `max_scroll_attempts = 100  # Prevent infinite loops`. -/
def max_scroll_attempts : Nat := 100

/-- The constant `no_new_images_threshold = 3`. -/
def no_new_images_threshold : Nat := 3

/-- The mutable loop state: the URL set, `last_count` and `scroll_attempts`. -/
structure St where
  image_urls : List String
  last_count : Nat
  scroll_attempts : Nat
deriving DecidableEq

/-- The state right before the loop: empty set, both counters zero. -/
def st0 : St := ⟨[], 0, 0⟩

/-- One loop iteration's effect on the state: run both scans, then compare
`current_count` with `last_count`; on growth record the new count and reset
`scroll_attempts`, otherwise increment `scroll_attempts`. -/
def stepIter (p : Pass) (st : St) : St :=
  let urls := scanPass p st.image_urls
  let current_count := urls.length
  if current_count > st.last_count then ⟨urls, current_count, 0⟩
  else ⟨urls, st.last_count, st.scroll_attempts + 1⟩

/-- The state after `n` loop iterations against page behaviour `pages`,
ignoring the loop's exit conditions (the real loop agrees with this as long
as it is still running). -/
def statesFn (pages : Nat → Pass) : Nat → St
  | 0 => st0
  | n + 1 => stepIter (pages n) (statesFn pages n)

/-- Size of the URL set after `n` iterations. -/
def lenAfter (pages : Nat → Pass) (n : Nat) : Nat :=
  ((statesFn pages n).image_urls).length

/-- The externally visible scroll/sleep actions of the loop body. -/
inductive Event where
  | scrollToBottom
  | sleep (seconds : Nat)
  | checkBottom (hit : Bool)
deriving DecidableEq

/-- The bottom-of-page test the script computes:
`scroll_position + window_height >= page_height - 10`. -/
def atBottom (p : Pass) : Bool :=
  decide (p.pageHeight - 10 ≤ p.scrollPos + p.windowHeight)

/-- The events of one loop iteration.  Every iteration scrolls to the bottom
and sleeps 2 seconds before scanning; an iteration that does not `break`
then performs the bottom check and, when it hits, the extra
sleep-1 / scroll / sleep-2 cycle.  An iteration that exits via the
no-growth `break` skips the bottom check entirely. -/
def iterEvents (p : Pass) (broke : Bool) : List Event :=
  [Event.scrollToBottom, Event.sleep 2] ++
    (if broke then []
     else Event.checkBottom (atBottom p) ::
       (if atBottom p then [Event.sleep 1, Event.scrollToBottom, Event.sleep 2]
        else []))

/-- The scroll loop `while scroll_attempts < max_scroll_attempts: ...`,
started in state `st` with `i` iterations already performed, allowed to run
`fuel` more iterations.  Returns `none` when the loop is still running after
`fuel` further iterations, and otherwise the exit state, the total number of
iterations performed, and the event trace of the remaining iterations. -/
def runLoop (pages : Nat → Pass) : St → Nat → Nat → Option (St × Nat × List Event)
  | _, _, 0 => none
  | st, i, fuel + 1 =>
    if st.scroll_attempts < max_scroll_attempts then
      if no_new_images_threshold ≤ (stepIter (pages i) st).scroll_attempts then
        some (stepIter (pages i) st, i + 1, iterEvents (pages i) true)
      else
        match runLoop pages (stepIter (pages i) st) (i + 1) fuel with
        | none => none
        | some (fin, n, evs) => some (fin, n, iterEvents (pages i) false ++ evs)
    else some (st, i, [])

/-- The behaviour of one whole run: whether `driver.get` succeeds, and for
each loop iteration either the page state or an exception raised while
scrolling/scanning. -/
structure Behavior where
  navOk : Bool
  pages : Nat → Except Unit Pass

/-- The scroll loop when an iteration may raise: an exception propagates out
of the loop immediately (as `Except.error`).  No event trace is tracked
here; the pure `runLoop` above is the instrumented version. -/
def runLoopE (pages : Nat → Except Unit Pass) : St → Nat → Nat → Option (Except Unit (St × Nat))
  | _, _, 0 => none
  | st, i, fuel + 1 =>
    if st.scroll_attempts < max_scroll_attempts then
      match pages i with
      | Except.error e => some (Except.error e)
      | Except.ok p =>
        if no_new_images_threshold ≤ (stepIter p st).scroll_attempts then
          some (Except.ok (stepIter p st, i + 1))
        else runLoopE pages (stepIter p st) (i + 1) fuel
    else some (Except.ok (st, i))

/-- Outcome of one run of `scrape_avif_images` after the driver was
initialised: the returned list, how many times `driver.quit()` ran, and
whether the `except` branch was taken. -/
structure RunResult where
  result : List String
  quitCount : Nat
  errored : Bool
deriving DecidableEq

/-- The body of `scrape_avif_images` after driver initialisation: `try`
navigate and run the loop, returning `list(image_urls)`; `except` any
exception and return `[]`; `finally` call `driver.quit()` exactly once on
every exit path (modelled by the single `quitCount := 1` on each branch).
`none` when the given fuel does not reach the loop's exit. -/
def scrape_avif_images (b : Behavior) (fuel : Nat) : Option RunResult :=
  if b.navOk then
    match runLoopE b.pages st0 0 fuel with
    | none => none
    | some (Except.error _) => some ⟨[], 1, true⟩
    | some (Except.ok (st, _)) => some ⟨st.image_urls, 1, false⟩
  else some ⟨[], 1, true⟩

/-- The two browser engines the script knows. -/
inductive EngineKind where
  | chrome
  | firefox
deriving DecidableEq

/-- Driver initialisation: `try: driver = webdriver.Chrome() except: try:
driver = webdriver.Firefox() except: sys.exit(1)`. -/
def acquireEngine (chromeOk firefoxOk : Bool) : Option EngineKind :=
  if chromeOk then some EngineKind.chrome
  else if firefoxOk then some EngineKind.firefox
  else none

/-- Environment of a whole process invocation: which engines can start, and
the page behaviour of the run. -/
structure MainBehavior where
  chromeOk : Bool
  firefoxOk : Bool
  run : Behavior

/-- The whole process: initialise a driver with fallback, `sys.exit(1)` when
neither engine starts, otherwise run `scrape_avif_images` and finish with
the implicit exit code 0.  Returns the exit code together with the engine
used and the run's outcome. -/
def mainRun (mb : MainBehavior) (fuel : Nat) : Option (Nat × Option (EngineKind × RunResult)) :=
  match acquireEngine mb.chromeOk mb.firefoxOk with
  | none => some (1, none)
  | some eng =>
    match scrape_avif_images mb.run fuel with
    | none => none
    | some r => some (0, some (eng, r))

/-- The expected event trace of `k` executed iterations starting at
iteration index `i`, the last of which exits through the no-growth `break`
(and therefore skips the bottom check): every earlier iteration contributes
`iterEvents _ false`, the final one `iterEvents _ true`. -/
def traceFrom (pages : Nat → Pass) : Nat → Nat → List Event
  | _, 0 => []
  | i, 1 => iterEvents (pages i) true
  | i, k + 2 => iterEvents (pages i) false ++ traceFrom pages (i + 1) (k + 1)

/-- A page state with no elements at all and zero scroll geometry (note the
bottom test `0 - 10 <= 0 + 0` holds on it). -/
def emptyPass : Pass := ⟨[], [], 0, 0, 0⟩

/-- A page whose img scan yields one fresh URL on every iteration forever. -/
def freshPages (i : Nat) : Pass :=
  ⟨[some (("u" ++ Nat.repr i) ++ (".avif"))], [], 0, 0, 0⟩

/-- One img element whose src is `a.avif`. -/
def passA : Pass := ⟨[some ("a.avif")], [], 0, 0, 0⟩

/-- One img element whose src is `b.avif`. -/
def passB : Pass := ⟨[some ("b.avif")], [], 0, 0, 0⟩

/-- A page that produces a new URL on iterations 1 and 2 and nothing new
afterwards (growth stops after iteration `K = 2`). -/
def w4pages (i : Nat) : Pass :=
  if i = 0 then passA else if i = 1 then passB else emptyPass

/-- A page whose first iteration shows the same URL as an img src (twice)
and inside an inline style, and which shows nothing new afterwards. -/
def dupPages (i : Nat) : Pass :=
  if i = 0 then
    ⟨[some ("https://s/a.avif"), some ("https://s/a.avif")],
     [some ("background-image: url(https://s/a.avif)")], 0, 0, 0⟩
  else emptyPass

/-- A page that never grows and always reports the viewport at the bottom. -/
def bottomPages (_ : Nat) : Pass := emptyPass

/-- A behaviour whose navigation (`driver.get`) raises. -/
def bNavFail : Behavior := ⟨false, fun _ => Except.ok emptyPass⟩

/-- A behaviour that finds `a.avif` on the first iteration and raises during
the second one. -/
def bScanErr : Behavior :=
  ⟨true, fun i => if i = 0 then Except.ok passA else Except.error ()⟩

/-- A behaviour that navigates fine and never finds anything. -/
def bQuick : Behavior := ⟨true, fun _ => Except.ok emptyPass⟩

/-- A process environment where Chrome cannot start but Firefox can. -/
def mbFallback : MainBehavior := ⟨false, true, bQuick⟩

/-- The events of one non-breaking iteration whose bottom check hits
(`atBottom` is true for all the zero-geometry passes used below). -/
def fullBottomIter : List Event :=
  [Event.scrollToBottom, Event.sleep 2, Event.checkBottom true,
   Event.sleep 1, Event.scrollToBottom, Event.sleep 2]

/-- The events of an iteration that exits through the no-growth `break`. -/
def breakIter : List Event := [Event.scrollToBottom, Event.sleep 2]

/-- Trace of the 5-iteration run against `w4pages`. -/
def evC2 : List Event :=
  fullBottomIter ++ fullBottomIter ++ fullBottomIter ++ fullBottomIter ++ breakIter

/-- Trace of the 4-iteration run against `dupPages`. -/
def evC6 : List Event :=
  fullBottomIter ++ fullBottomIter ++ fullBottomIter ++ breakIter

/-- Trace of the 3-iteration run against `bottomPages`. -/
def evC8 : List Event :=
  fullBottomIter ++ fullBottomIter ++ breakIter

/-! Lemmas about the substring test and the matcher. -/

theorem isPrefixOf_append_self (l t : List Char) : l.isPrefixOf (l ++ t) = true := by
  rw [ List.isPrefixOf_iff_prefix]
  exact List.prefix_append l t

theorem hasSub_cons_of (pat : List Char) (c : Char) (cs : List Char)
    (h : hasSub pat cs = true) : hasSub pat (c :: cs) = true := by
  simp [hasSub, h]

theorem hasSub_of_isPrefixOf (pat t : List Char) (hp : 0 < pat.length)
    (h : pat.isPrefixOf t = true) : hasSub pat t = true := by
  cases t with
  | nil =>
    cases pat with
    | nil => simp at hp
    | cons p ps => simp [List.isPrefixOf] at h
  | cons c cs => simp [hasSub, h]

theorem hasSub_of_drop (pat t : List Char) (k : Nat)
    (h : hasSub pat (t.drop k) = true) : hasSub pat t = true := by
  induction k generalizing t with
  | zero => exact h
  | succ k ih =>
    cases t with
    | nil => exact h
    | cons c cs => exact hasSub_cons_of _ _ _ (ih cs h)

theorem hasSub_middle (pre post : List Char) :
    hasSub avif (pre ++ avif ++ post) = true := by
  induction pre with
  | nil =>
    refine hasSub_of_isPrefixOf _ _ (by decide) ?_
    simp only [List.nil_append]
    exact isPrefixOf_append_self avif post
  | cons c cs ih => exact hasSub_cons_of _ _ _ ih

theorem tryPlus_hasSub (t : List Char) (l : Nat) (x : List Char × List Char × List Char)
    (h : tryPlus t l = some x) : hasSub avif t = true := by
  induction l with
  | zero => simp [tryPlus] at h
  | succ l ih =>
    rw [tryPlus] at h
    by_cases hpre : avif.isPrefixOf (t.drop (l + 1)) = true
    · rw [if_pos hpre] at h
      exact hasSub_of_drop _ _ _ (hasSub_of_isPrefixOf _ _ (by decide) hpre)
    · rw [if_neg hpre] at h
      exact ih h

theorem matchBody_hasSub (t : List Char) (x : List Char × List Char)
    (h : matchBody t = some x) : hasSub avif t = true := by
  rw [matchBody] at h
  cases hp : tryPlus t (nonQuoteRun t) with
  | none => rw [hp] at h; simp at h
  | some y => exact tryPlus_hasSub t _ y hp

theorem matchAfterOpen_hasSub (t : List Char) (x : List Char × List Char)
    (h : matchAfterOpen t = some x) : hasSub avif t = true := by
  cases t with
  | nil => simp [matchAfterOpen] at h
  | cons c t2 =>
    rw [matchAfterOpen] at h
    by_cases hq : isQuote c = true
    · rw [if_pos hq] at h
      cases hb : matchBody t2 with
      | some r => exact hasSub_cons_of _ _ _ (matchBody_hasSub t2 r hb)
      | none =>
        rw [hb] at h
        exact matchBody_hasSub _ x h
    · rw [if_neg hq] at h
      exact matchBody_hasSub _ x h

theorem matchHere_hasSub (t : List Char) (x : List Char × List Char)
    (h : matchHere t = some x) : hasSub avif t = true := by
  rw [matchHere] at h
  by_cases hu : urlOpen.isPrefixOf t = true
  · rw [if_pos hu] at h
    exact hasSub_of_drop _ _ urlOpen.length (matchAfterOpen_hasSub _ x h)
  · rw [if_neg hu] at h; simp at h

theorem hasSub_tail_of_cons (pat : List Char) (c : Char) (cs : List Char)
    (h : hasSub pat (c :: cs) = false) : hasSub pat cs = false := by
  rw [hasSub] at h
  exact (Bool.or_eq_false_iff.mp h).2

theorem scanFind_nil_of_no_sub (fuel : Nat) (t : List Char)
    (h : hasSub avif t = false) : scanFind fuel t = [] := by
  induction fuel generalizing t with
  | zero => cases t <;> rfl
  | succ fuel ih =>
    cases t with
    | nil => rfl
    | cons c cs =>
      rw [scanFind]
      cases hm : matchHere (c :: cs) with
      | some r =>
        have := matchHere_hasSub _ r hm
        rw [this] at h; cases h
      | none => exact ih cs (hasSub_tail_of_cons _ _ _ h)

theorem reFindAll_nil_of_no_sub (style : String)
    (h : strContains avif style = false) : reFindAll style = [] := by
  unfold reFindAll findAvifUrls
  rw [scanFind_nil_of_no_sub _ _ h]
  rfl

theorem matchBody_group_hasSub (t : List Char) (g rest : List Char)
    (h : matchBody t = some (g, rest)) : hasSub avif g = true := by
  rw [matchBody] at h
  cases hp : tryPlus t (nonQuoteRun t) with
  | none => rw [hp] at h; simp at h
  | some y =>
    rw [hp] at h
    obtain ⟨pre, post, r⟩ := y
    simp only [Option.some.injEq, Prod.mk.injEq] at h
    rw [← h.1]
    exact hasSub_middle pre post

theorem matchAfterOpen_group_hasSub (t : List Char) (g rest : List Char)
    (h : matchAfterOpen t = some (g, rest)) : hasSub avif g = true := by
  cases t with
  | nil => simp [matchAfterOpen] at h
  | cons c t2 =>
    rw [matchAfterOpen] at h
    by_cases hq : isQuote c = true
    · rw [if_pos hq] at h
      cases hb : matchBody t2 with
      | some r =>
        rw [hb] at h
        obtain ⟨g2, rest2⟩ := r
        simp only [Option.some.injEq] at h
        cases h
        exact matchBody_group_hasSub t2 g rest hb
      | none =>
        rw [hb] at h
        exact matchBody_group_hasSub _ g rest h
    · rw [if_neg hq] at h
      exact matchBody_group_hasSub _ g rest h

theorem matchHere_group_hasSub (t : List Char) (g rest : List Char)
    (h : matchHere t = some (g, rest)) : hasSub avif g = true := by
  rw [matchHere] at h
  by_cases hu : urlOpen.isPrefixOf t = true
  · rw [if_pos hu] at h
    exact matchAfterOpen_group_hasSub _ g rest h
  · rw [if_neg hu] at h; simp at h

theorem scanFind_mem_hasSub (fuel : Nat) (t : List Char) (g : List Char)
    (hmem : g ∈ scanFind fuel t) : hasSub avif g = true := by
  induction fuel generalizing t with
  | zero => cases t <;> simp [scanFind] at hmem
  | succ fuel ih =>
    cases t with
    | nil => simp [scanFind] at hmem
    | cons c cs =>
      rw [scanFind] at hmem
      cases hm : matchHere (c :: cs) with
      | some r =>
        rw [hm] at hmem
        obtain ⟨g2, rest⟩ := r
        cases hmem with
        | head => exact matchHere_group_hasSub _ g rest hm
        | tail _ hmem2 => exact ih rest hmem2
      | none =>
        rw [hm] at hmem
        exact ih cs hmem

theorem reFindAll_mem_hasSub (style : String) (u : String)
    (hmem : u ∈ reFindAll style) : strContains avif u = true := by
  rw [reFindAll] at hmem
  obtain ⟨g, hg, hu⟩ := List.mem_map.mp hmem
  rw [← hu]
  exact scanFind_mem_hasSub _ _ g hg

/-! Lemmas about the URL set and the scans. -/

theorem addUrl_grows (urls : List String) (u : String) :
    urls <+: addUrl urls u := by
  unfold addUrl
  split
  · exact List.prefix_refl urls
  · exact ⟨[u], rfl⟩

theorem addUrls_grows (gs : List String) (urls : List String) :
    urls <+: addUrls urls gs := by
  induction gs generalizing urls with
  | nil => exact List.prefix_refl urls
  | cons g gs ih => exact (addUrl_grows urls g).trans (ih (addUrl urls g))

theorem scanImgs_grows (imgs : List (Option String)) (urls : List String) :
    urls <+: scanImgs imgs urls := by
  induction imgs generalizing urls with
  | nil => exact List.prefix_refl urls
  | cons o rest ih =>
    cases o with
    | none => exact ih urls
    | some src =>
      rw [scanImgs]
      split
      · exact (addUrl_grows urls src).trans (ih (addUrl urls src))
      · exact ih urls

theorem scanStyles_grows (styles : List (Option String)) (urls : List String) :
    urls <+: scanStyles styles urls := by
  induction styles generalizing urls with
  | nil => exact List.prefix_refl urls
  | cons o rest ih =>
    cases o with
    | none => exact ih urls
    | some style =>
      rw [scanStyles]
      split
      · exact (addUrls_grows (reFindAll style) urls).trans (ih _)
      · exact ih urls

theorem scanPass_grows (p : Pass) (urls : List String) :
    urls <+: scanPass p urls := by
  exact (scanImgs_grows p.imgs urls).trans (scanStyles_grows p.styles _)

theorem addUrl_nodup (urls : List String) (u : String) (h : urls.Nodup) :
    (addUrl urls u).Nodup := by
  unfold addUrl
  split
  · exact h
  · rename_i hmem
    simpa [List.nodup_append] using ⟨h, hmem⟩

theorem addUrls_nodup (gs : List String) (urls : List String) (h : urls.Nodup) :
    (addUrls urls gs).Nodup := by
  induction gs generalizing urls with
  | nil => exact h
  | cons g gs ih => exact ih _ (addUrl_nodup urls g h)

theorem scanImgs_nodup (imgs : List (Option String)) (urls : List String)
    (h : urls.Nodup) : (scanImgs imgs urls).Nodup := by
  induction imgs generalizing urls with
  | nil => exact h
  | cons o rest ih =>
    cases o with
    | none => exact ih urls h
    | some src =>
      rw [scanImgs]
      split
      · exact ih _ (addUrl_nodup urls src h)
      · exact ih urls h

theorem scanStyles_nodup (styles : List (Option String)) (urls : List String)
    (h : urls.Nodup) : (scanStyles styles urls).Nodup := by
  induction styles generalizing urls with
  | nil => exact h
  | cons o rest ih =>
    cases o with
    | none => exact ih urls h
    | some style =>
      rw [scanStyles]
      split
      · exact ih _ (addUrls_nodup _ urls h)
      · exact ih urls h

theorem scanPass_nodup (p : Pass) (urls : List String) (h : urls.Nodup) :
    (scanPass p urls).Nodup :=
  scanStyles_nodup p.styles _ (scanImgs_nodup p.imgs urls h)

theorem addUrl_avif (urls : List String) (u : String)
    (h : ∀ v ∈ urls, strContains avif v = true) (hu : strContains avif u = true) :
    ∀ v ∈ addUrl urls u, strContains avif v = true := by
  intro v hv
  unfold addUrl at hv
  split at hv
  · exact h v hv
  · rcases List.mem_append.mp hv with h1 | h1
    · exact h v h1
    · rw [List.mem_singleton.mp h1]; exact hu

theorem addUrls_avif (gs : List String) (urls : List String)
    (h : ∀ v ∈ urls, strContains avif v = true)
    (hg : ∀ g ∈ gs, strContains avif g = true) :
    ∀ v ∈ addUrls urls gs, strContains avif v = true := by
  induction gs generalizing urls with
  | nil => exact h
  | cons g gs ih =>
    exact ih _ (addUrl_avif urls g h (hg g (List.mem_cons_self g gs)))
      (fun g2 hg2 => hg g2 (List.mem_cons_of_mem g hg2))

theorem scanImgs_avif (imgs : List (Option String)) (urls : List String)
    (h : ∀ v ∈ urls, strContains avif v = true) :
    ∀ v ∈ scanImgs imgs urls, strContains avif v = true := by
  induction imgs generalizing urls with
  | nil => exact h
  | cons o rest ih =>
    cases o with
    | none => exact ih urls h
    | some src =>
      rw [scanImgs]
      split
      · rename_i hcond
        exact ih _ (addUrl_avif urls src h (Bool.and_eq_true_iff.mp hcond).2)
      · exact ih urls h

theorem scanStyles_avif (styles : List (Option String)) (urls : List String)
    (h : ∀ v ∈ urls, strContains avif v = true) :
    ∀ v ∈ scanStyles styles urls, strContains avif v = true := by
  induction styles generalizing urls with
  | nil => exact h
  | cons o rest ih =>
    cases o with
    | none => exact ih urls h
    | some style =>
      rw [scanStyles]
      split
      · exact ih _ (addUrls_avif _ urls h (fun g hg => reFindAll_mem_hasSub style g hg))
      · exact ih urls h

theorem scanPass_avif (p : Pass) (urls : List String)
    (h : ∀ v ∈ urls, strContains avif v = true) :
    ∀ v ∈ scanPass p urls, strContains avif v = true :=
  scanStyles_avif p.styles _ (scanImgs_avif p.imgs urls h)

/-! Lemmas about the loop state. -/

theorem stepIter_image (p : Pass) (st : St) :
    (stepIter p st).image_urls = scanPass p st.image_urls := by
  simp only [stepIter]
  split <;> rfl

theorem statesFn_grows_succ (pages : Nat → Pass) (n : Nat) :
    (statesFn pages n).image_urls <+: (statesFn pages (n + 1)).image_urls := by
  rw [statesFn, stepIter_image]
  exact scanPass_grows _ _

theorem statesFn_grows_le (pages : Nat → Pass) (m n : Nat) (h : m ≤ n) :
    (statesFn pages m).image_urls <+: (statesFn pages n).image_urls := by
  induction n with
  | zero =>
    cases Nat.le_zero.mp h
    exact List.prefix_refl _
  | succ n ih =>
    rcases Nat.lt_or_ge m (n + 1) with h1 | h1
    · exact (ih (Nat.lt_succ_iff.mp h1)).trans (statesFn_grows_succ pages n)
    · cases Nat.le_antisymm h h1
      exact List.prefix_refl _

theorem statesFn_last_count (pages : Nat → Pass) (n : Nat) :
    (statesFn pages n).last_count = lenAfter pages n := by
  induction n with
  | zero => rfl
  | succ n ih =>
    have hlen : (statesFn pages n).image_urls.length ≤
        (scanPass (pages n) (statesFn pages n).image_urls).length :=
      (scanPass_grows _ _).length_le
    have himg : lenAfter pages (n + 1)
        = (scanPass (pages n) (statesFn pages n).image_urls).length := by
      rw [lenAfter, statesFn, stepIter_image]
    rw [statesFn]
    simp only [stepIter]
    split
    · exact himg.symm
    · rename_i hng
      push_neg at hng
      rw [ih] at hng
      show (statesFn pages n).last_count = lenAfter pages (n + 1)
      rw [ih, himg]
      exact Nat.le_antisymm hlen hng

theorem statesFn_nodup (pages : Nat → Pass) (n : Nat) :
    (statesFn pages n).image_urls.Nodup := by
  induction n with
  | zero => exact List.nodup_nil
  | succ n ih =>
    rw [statesFn, stepIter_image]
    exact scanPass_nodup _ _ ih

theorem statesFn_avif (pages : Nat → Pass) (n : Nat) :
    ∀ v ∈ (statesFn pages n).image_urls, strContains avif v = true := by
  induction n with
  | zero => intro v hv; simp [statesFn, st0] at hv
  | succ n ih =>
    rw [statesFn, stepIter_image]
    exact scanPass_avif _ _ ih

theorem runLoop_sound (pages : Nat → Pass) (fuel : Nat) :
    ∀ (m : Nat) (st' : St) (n : Nat) (evs : List Event),
      runLoop pages (statesFn pages m) m fuel = some (st', n, evs) →
      st' = statesFn pages n ∧ m ≤ n := by
  induction fuel with
  | zero => intro m st' n evs h; simp [runLoop] at h
  | succ fuel ih =>
    intro m st' n evs h
    rw [runLoop] at h
    by_cases hlt : (statesFn pages m).scroll_attempts < max_scroll_attempts
    · rw [if_pos hlt] at h
      by_cases hbr : no_new_images_threshold ≤
          (stepIter (pages m) (statesFn pages m)).scroll_attempts
      · rw [if_pos hbr] at h
        simp only [Option.some.injEq, Prod.mk.injEq] at h
        obtain ⟨h1, h2, _⟩ := h
        subst h2
        exact ⟨h1.symm, Nat.le_succ m⟩
      · rw [if_neg hbr] at h
        cases hr : runLoop pages (stepIter (pages m) (statesFn pages m)) (m + 1) fuel with
        | none => rw [hr] at h; cases h
        | some r =>
          obtain ⟨fin, n2, evs2⟩ := r
          rw [hr] at h
          simp only [Option.some.injEq, Prod.mk.injEq] at h
          obtain ⟨h1, h2, _⟩ := h
          subst h1 h2
          have := ih (m + 1) fin n2 evs2 (by rw [← statesFn] at hr; exact hr)
          exact ⟨this.1, Nat.le_of_succ_le this.2⟩
    · rw [if_neg hlt] at h
      simp only [Option.some.injEq, Prod.mk.injEq] at h
      obtain ⟨h1, h2, _⟩ := h
      subst h2
      exact ⟨h1.symm, Nat.le_refl m⟩

theorem stepIter_sa (p : Pass) (st : St) :
    (stepIter p st).scroll_attempts = 0 ∨
      (stepIter p st).scroll_attempts = st.scroll_attempts + 1 := by
  simp only [stepIter]
  split
  · exact Or.inl rfl
  · exact Or.inr rfl

theorem runLoop_halts (pages : Nat → Pass) :
    ∀ (k m fuel : Nat),
      (statesFn pages m).scroll_attempts < no_new_images_threshold →
      (∀ j, m < j → j < m + k + 1 →
        (statesFn pages j).scroll_attempts < no_new_images_threshold) →
      no_new_images_threshold ≤ (statesFn pages (m + k + 1)).scroll_attempts →
      k + 1 ≤ fuel →
      ∃ evs, runLoop pages (statesFn pages m) m fuel
        = some (statesFn pages (m + k + 1), m + k + 1, evs) := by
  intro k
  induction k with
  | zero =>
    intro m fuel hm _ hend hfuel
    obtain ⟨f, rfl⟩ : ∃ f, fuel = f + 1 :=
      ⟨fuel - 1, (Nat.succ_pred_eq_of_pos (Nat.lt_of_lt_of_le Nat.zero_lt_one hfuel)).symm⟩
    rw [runLoop]
    rw [if_pos (Nat.lt_trans hm (by decide))]
    have hst : stepIter (pages m) (statesFn pages m) = statesFn pages (m + 1) := rfl
    rw [hst, if_pos hend]
    exact ⟨iterEvents (pages m) true, rfl⟩
  | succ k ih =>
    intro m fuel hm hmid hend hfuel
    obtain ⟨f, rfl⟩ : ∃ f, fuel = f + 1 :=
      ⟨fuel - 1, (Nat.succ_pred_eq_of_pos
        (Nat.lt_of_lt_of_le (Nat.succ_pos _) hfuel)).symm⟩
    rw [runLoop]
    rw [if_pos (Nat.lt_trans hm (by decide))]
    have hst : stepIter (pages m) (statesFn pages m) = statesFn pages (m + 1) := rfl
    have hnext : (statesFn pages (m + 1)).scroll_attempts < no_new_images_threshold := by
      refine hmid (m + 1) (Nat.lt_succ_self m) ?_
      omega
    rw [hst, if_neg (Nat.not_le.mpr hnext)]
    have hmid2 : ∀ j, m + 1 < j → j < (m + 1) + k + 1 →
        (statesFn pages j).scroll_attempts < no_new_images_threshold := by
      intro j h1 h2
      exact hmid j (Nat.lt_of_succ_lt h1) (by omega)
    have hend2 : no_new_images_threshold ≤
        (statesFn pages ((m + 1) + k + 1)).scroll_attempts := by
      have : (m + 1) + k + 1 = m + (k + 1) + 1 := by omega
      rw [this]
      exact hend
    obtain ⟨evs, heq⟩ := ih (m + 1) f hnext hmid2 hend2 (Nat.le_of_succ_le_succ hfuel)
    rw [heq]
    refine ⟨iterEvents (pages m) false ++ evs, ?_⟩
    have : (m + 1) + k + 1 = m + (k + 1) + 1 := by omega
    rw [this]

theorem runLoop_trace (pages : Nat → Pass) :
    ∀ (fuel : Nat) (st : St) (i : Nat) (st' : St) (n : Nat) (evs : List Event),
      st.scroll_attempts < no_new_images_threshold →
      runLoop pages st i fuel = some (st', n, evs) →
      evs = traceFrom pages i (n - i) ∧ i < n ∧
        st'.scroll_attempts = no_new_images_threshold := by
  intro fuel
  induction fuel with
  | zero => intro st i st' n evs _ h; simp [runLoop] at h
  | succ fuel ih =>
    intro st i st' n evs hsa h
    rw [runLoop] at h
    rw [if_pos (Nat.lt_trans hsa (by decide))] at h
    by_cases hbr : no_new_images_threshold ≤ (stepIter (pages i) st).scroll_attempts
    · rw [if_pos hbr] at h
      simp only [Option.some.injEq, Prod.mk.injEq] at h
      obtain ⟨h1, h2, h3⟩ := h
      subst h2
      constructor
      · rw [← h3]
        have : i + 1 - i = 1 := by omega
        rw [this, traceFrom]
      constructor
      · exact Nat.lt_succ_self i
      · rcases stepIter_sa (pages i) st with h0 | h0
        · rw [h0] at hbr; cases hbr
        · rw [← h1, h0]
          have := Nat.succ_le_of_lt hsa
          omega
    · rw [if_neg hbr] at h
      cases hr : runLoop pages (stepIter (pages i) st) (i + 1) fuel with
      | none => rw [hr] at h; cases h
      | some r =>
        obtain ⟨fin, n2, evs2⟩ := r
        rw [hr] at h
        cases h
        obtain ⟨e1, e2, e3⟩ := ih (stepIter (pages i) st) (i + 1) st' n evs2
          (Nat.lt_of_not_le hbr) hr
        refine ⟨?_, Nat.lt_of_succ_lt e2, e3⟩
        rw [e1]
        obtain ⟨d, hd⟩ : ∃ d, n - (i + 1) = d + 1 :=
          ⟨n - (i + 1) - 1, by omega⟩
        have hni : n - i = d + 2 := by omega
        rw [hd, hni, traceFrom]

theorem statesFn_sa_growth (pages : Nat → Pass) (i : Nat)
    (h : lenAfter pages i < lenAfter pages (i + 1)) :
    (statesFn pages (i + 1)).scroll_attempts = 0 := by
  have himg : lenAfter pages (i + 1)
      = (scanPass (pages i) (statesFn pages i).image_urls).length := by
    rw [lenAfter, statesFn, stepIter_image]
  rw [statesFn]
  simp only [stepIter]
  split
  · rfl
  · rename_i hng
    push_neg at hng
    rw [statesFn_last_count] at hng
    rw [himg] at h
    omega

theorem statesFn_sa_nogrowth (pages : Nat → Pass) (i : Nat)
    (h : lenAfter pages (i + 1) = lenAfter pages i) :
    (statesFn pages (i + 1)).scroll_attempts
      = (statesFn pages i).scroll_attempts + 1 := by
  have himg : lenAfter pages (i + 1)
      = (scanPass (pages i) (statesFn pages i).image_urls).length := by
    rw [lenAfter, statesFn, stepIter_image]
  rw [statesFn]
  simp only [stepIter]
  split
  · rename_i hgt
    rw [statesFn_last_count] at hgt
    rw [himg] at h
    omega
  · rfl

theorem w4pages_stop : ∀ i, 2 ≤ i → lenAfter w4pages (i + 1) = lenAfter w4pages i := by
  intro i hi
  have hp : w4pages i = emptyPass := by
    unfold w4pages
    rw [if_neg (by omega), if_neg (by omega)]
  rw [lenAfter, statesFn, stepIter_image, hp]
  rfl

theorem scanImgs_allNone (imgs : List (Option String)) (urls : List String)
    (h : ∀ o ∈ imgs, o = none) : scanImgs imgs urls = urls := by
  induction imgs with
  | nil => rfl
  | cons o rest ih =>
    have ho := h o (List.mem_cons_self o rest)
    subst ho
    exact ih (fun o2 ho2 => h o2 (List.mem_cons_of_mem none ho2))

theorem scanStyles_allNone (styles : List (Option String)) (urls : List String)
    (h : ∀ o ∈ styles, o = none) : scanStyles styles urls = urls := by
  induction styles with
  | nil => rfl
  | cons o rest ih =>
    have ho := h o (List.mem_cons_self o rest)
    subst ho
    exact ih (fun o2 ho2 => h o2 (List.mem_cons_of_mem none ho2))

/-! The claims. -/

set_option maxRecDepth 40000 in
/-- Claim C1: the spec and the code's own comment (`max_scroll_attempts = 100
# Prevent infinite loops`) promise that the loop halts within 100 iterations
for every page behavior.  The code violates this: `scroll_attempts` is reset
to zero whenever the set grows, so against `freshPages` — a page producing
one fresh URL on every pass — the loop is still running after
`max_scroll_attempts + 1 = 101` full iterations (and, by the same argument,
after any number of them). -/
theorem c1_cap_exceeded :
    runLoop freshPages st0 0 (max_scroll_attempts + 1) = none := by decide

/-- Claim C3: whenever `scrape_avif_images` completes, the browser session is
released exactly once, and if an exception was raised during navigation or
scanning the returned collection is empty (never the partial set). -/
theorem c3_error_returns_empty (b : Behavior) (fuel : Nat) (r : RunResult)
    (h : scrape_avif_images b fuel = some r) :
    r.quitCount = 1 ∧ (r.errored = true → r.result = []) := by
  unfold scrape_avif_images at h
  by_cases hn : b.navOk = true
  · rw [if_pos hn] at h
    cases hr : runLoopE b.pages st0 0 fuel with
    | none => rw [hr] at h; cases h
    | some out =>
      rw [hr] at h
      cases out with
      | error e => cases h; exact ⟨rfl, fun _ => rfl⟩
      | ok v =>
        obtain ⟨st, n⟩ := v
        cases h
        exact ⟨rfl, fun hfalse => by cases hfalse⟩
  · rw [if_neg hn] at h
    cases h
    exact ⟨rfl, fun _ => rfl⟩

/-- Witness for C3: concrete behaviour whose navigation raises. -/
theorem c3_witness :
    scrape_avif_images bNavFail 1 = some ⟨[], 1, true⟩ ∧
    ((⟨[], 1, true⟩ : RunResult).quitCount = 1 ∧
      ((⟨[], 1, true⟩ : RunResult).errored = true →
        (⟨[], 1, true⟩ : RunResult).result = [])) :=
  ⟨by decide, c3_error_returns_empty bNavFail 1 ⟨[], 1, true⟩ (by decide)⟩

/-- Claim C5: on the style string
`background-image: url("https://x/y.avif?q=1")` the extractor yields exactly
`https://x/y.avif?q=1`, and on any style string not containing `.avif` it
yields nothing. -/
theorem c5_extension_filter (s : String) (h : strContains avif s = false) :
    reFindAll ("background-image: url(\"https://x/y.avif?q=1\")")
        = [("https://x/y.avif?q=1")] ∧
      reFindAll s = [] :=
  ⟨by decide, reFindAll_nil_of_no_sub s h⟩

/-- Witness for C5: the marker-free style string `color: red`. -/
theorem c5_witness :
    strContains avif ("color: red") = false ∧
    (reFindAll ("background-image: url(\"https://x/y.avif?q=1\")")
        = [("https://x/y.avif?q=1")] ∧
      reFindAll ("color: red") = []) :=
  ⟨by decide, c5_extension_filter ("color: red") (by decide)⟩

/-- Claim C9: scan passes are total over elements lacking the relevant
attribute: a `none` img src and a `none` style are skipped and contribute
nothing — a pass whose attributes are all `none` leaves the set unchanged. -/
theorem c9_none_skipped :
    (∀ (rest : List (Option String)) (urls : List String),
      scanImgs (none :: rest) urls = scanImgs rest urls) ∧
    (∀ (rest : List (Option String)) (urls : List String),
      scanStyles (none :: rest) urls = scanStyles rest urls) ∧
    (∀ (p : Pass) (urls : List String),
      (∀ o ∈ p.imgs, o = none) → (∀ o ∈ p.styles, o = none) →
      scanPass p urls = urls) := by
  refine ⟨fun rest urls => rfl, fun rest urls => rfl, fun p urls h1 h2 => ?_⟩
  rw [scanPass, scanImgs_allNone p.imgs urls h1, scanStyles_allNone p.styles urls h2]

/-- Witness for C9: a pass with two src-less imgs and one style-less styled
element contributes nothing to a one-element set. -/
theorem c9_witness :
    (∀ o ∈ ([none, none] : List (Option String)), o = none) ∧
    (∀ o ∈ ([none] : List (Option String)), o = none) ∧
    scanPass ⟨[none, none], [none], 0, 0, 0⟩ [("a.avif")] = [("a.avif")] :=
  ⟨by decide, by decide,
    c9_none_skipped.2.2 ⟨[none, none], [none], 0, 0, 0⟩ [("a.avif")]
      (by decide) (by decide)⟩

/-- Counterexample to claim C2 as stated: the set during the `bScanErr` run
contains `a.avif` after the first pass, but the exception in the second pass
makes the run return the empty collection — so the set during a run is not
always a subset of the final returned collection. -/
theorem c2_counterexample :
    (stepIter passA st0).image_urls = [("a.avif")] ∧
    scrape_avif_images bScanErr 10 = some ⟨[], 1, true⟩ ∧
    ¬ ("a.avif") ∈ ([] : List String) := by decide

/-- Claim C2 (amended): the URL set grows monotonically from pass to pass and
no URL is ever removed, and in a run whose loop completes without an
exception the set at any point is a subset of the final collection (a run
aborted by an exception returns the empty collection instead). -/
theorem c2_monotonic_accumulation :
    (∀ (pages : Nat → Pass) (n : Nat),
      (statesFn pages n).image_urls ⊆ (statesFn pages (n + 1)).image_urls) ∧
    (∀ (pages : Nat → Pass) (fuel : Nat) (st : St) (n : Nat) (evs : List Event),
      runLoop pages st0 0 fuel = some (st, n, evs) →
      ∀ m, m ≤ n → (statesFn pages m).image_urls ⊆ st.image_urls) := by
  constructor
  · intro pages n
    exact (statesFn_grows_succ pages n).subset
  · intro pages fuel st n evs h m hm
    have hs := (runLoop_sound pages fuel 0 st n evs h).1
    rw [hs]
    exact (statesFn_grows_le pages m n hm).subset

/-- Witness for C2: in the completed 5-iteration run against `w4pages`, the
set after pass 1 is a subset of the final collection. -/
theorem c2_witness :
    runLoop w4pages st0 0 5
        = some (⟨[("a.avif"), ("b.avif")], 2, 3⟩, 5, evC2) ∧
    (statesFn w4pages 1).image_urls
        ⊆ (⟨[("a.avif"), ("b.avif")], 2, 3⟩ : St).image_urls :=
  ⟨by decide,
    c2_monotonic_accumulation.2 w4pages 5 ⟨[("a.avif"), ("b.avif")], 2, 3⟩ 5 evC2
      (by decide) 1 (by decide)⟩

/-- Claim C4: when the page grows the set on every iteration up to `K` and
never afterwards, the `scroll_attempts` counter is zero through iteration
`K`, counts `1, 2, 3` on the three following no-growth iterations, and the
loop halts at exactly iteration `K + 3` (with any sufficient fuel). -/
theorem c4_no_growth_stopping (pages : Nat → Pass) (K : Nat)
    (hgrow : ∀ i, i < K → lenAfter pages i < lenAfter pages (i + 1))
    (hstop : ∀ i, K ≤ i → lenAfter pages (i + 1) = lenAfter pages i) :
    (∀ i, i ≤ K → (statesFn pages i).scroll_attempts = 0) ∧
    (∀ j, j ≤ no_new_images_threshold →
      (statesFn pages (K + j)).scroll_attempts = j) ∧
    (∀ fuel, K + no_new_images_threshold ≤ fuel →
      ∃ evs, runLoop pages st0 0 fuel
        = some (statesFn pages (K + no_new_images_threshold),
            K + no_new_images_threshold, evs)) := by
  have hzero : ∀ i, i ≤ K → (statesFn pages i).scroll_attempts = 0 := by
    intro i hi
    induction i with
    | zero => rfl
    | succ i ih =>
      exact statesFn_sa_growth pages i (hgrow i (Nat.lt_of_succ_le hi))
  have hcount : ∀ j, (statesFn pages (K + j)).scroll_attempts = j := by
    intro j
    induction j with
    | zero => exact hzero K (Nat.le_refl K)
    | succ j ih =>
      have : K + (j + 1) = (K + j) + 1 := rfl
      rw [this, statesFn_sa_nogrowth pages (K + j) (hstop (K + j) (Nat.le_add_right K j)), ih]
  refine ⟨hzero, fun j _ => hcount j, fun fuel hfuel => ?_⟩
  have hK3 : K + no_new_images_threshold = 0 + (K + 2) + 1 := by
    show K + 3 = 0 + (K + 2) + 1
    omega
  rw [hK3]
  refine runLoop_halts pages (K + 2) 0 fuel (by rw [hzero 0 (Nat.zero_le K)]; decide)
    ?_ ?_ (by omega)
  · intro j h1 h2
    rcases Nat.lt_or_ge j (K + 1) with hj | hj
    · rw [hzero j (Nat.lt_succ_iff.mp hj)]; decide
    · obtain ⟨d, rfl⟩ : ∃ d, j = K + d := ⟨j - K, by omega⟩
      rw [hcount d]
      show d < 3
      omega
  · have heq : 0 + (K + 2) + 1 = K + 3 := by omega
    rw [heq, hcount 3]
    decide

/-- Witness for C4: `w4pages` grows on iterations 1 and 2 (`K = 2`) and
never afterwards, so the loop halts exactly at iteration `2 + 3 = 5`. -/
theorem c4_witness :
    (∀ i, i < 2 → lenAfter w4pages i < lenAfter w4pages (i + 1)) ∧
    ((∀ i, i ≤ 2 → (statesFn w4pages i).scroll_attempts = 0) ∧
      (∀ j, j ≤ no_new_images_threshold →
        (statesFn w4pages (2 + j)).scroll_attempts = j) ∧
      (∀ fuel, 2 + no_new_images_threshold ≤ fuel →
        ∃ evs, runLoop w4pages st0 0 fuel
          = some (statesFn w4pages (2 + no_new_images_threshold),
              2 + no_new_images_threshold, evs))) :=
  ⟨by decide, c4_no_growth_stopping w4pages 2 (by decide) w4pages_stop⟩

/-- Claim C6: the final collection of any completed run is duplicate-free:
every discovered URL — whether found by the img scan, the style scan, or
both, in one or several passes — appears in it exactly once. -/
theorem c6_dedup (pages : Nat → Pass) (fuel : Nat) (st : St) (n : Nat)
    (evs : List Event) (h : runLoop pages st0 0 fuel = some (st, n, evs)) :
    st.image_urls.Nodup ∧ ∀ u ∈ st.image_urls, st.image_urls.count u = 1 := by
  have hs := (runLoop_sound pages fuel 0 st n evs h).1
  rw [hs]
  exact ⟨statesFn_nodup pages n,
    fun u hu => List.count_eq_one_of_mem (statesFn_nodup pages n) hu⟩

/-- Witness for C6: `dupPages` discovers `https://s/a.avif` twice through the
img scan and once through the style scan of the same pass, yet the final
collection holds it exactly once. -/
theorem c6_witness :
    runLoop dupPages st0 0 10
        = some (⟨[("https://s/a.avif")], 1, 3⟩, 4, evC6) ∧
    ((⟨[("https://s/a.avif")], 1, 3⟩ : St).image_urls.Nodup ∧
      (("https://s/a.avif") ∈ (⟨[("https://s/a.avif")], 1, 3⟩ : St).image_urls →
        (⟨[("https://s/a.avif")], 1, 3⟩ : St).image_urls.count ("https://s/a.avif") = 1)) :=
  ⟨by decide,
    (c6_dedup dupPages 10 ⟨[("https://s/a.avif")], 1, 3⟩ 4 evC6 (by decide)).1,
    fun hm =>
      (c6_dedup dupPages 10 ⟨[("https://s/a.avif")], 1, 3⟩ 4 evC6 (by decide)).2
        ("https://s/a.avif") hm⟩

/-- Claim C7: driver initialisation tries Chrome first, falls back to
Firefox, and the process exits with status 1 exactly when neither engine
starts; any completed run exits with status 0 no matter what it found or
whether it errored. -/
theorem c7_engine_fallback (mb : MainBehavior) (fuel : Nat) (ec : Nat)
    (res : Option (EngineKind × RunResult))
    (h : mainRun mb fuel = some (ec, res)) :
    (ec = 1 ↔ mb.chromeOk = false ∧ mb.firefoxOk = false) ∧
    (mb.chromeOk = true → ∃ r, res = some (EngineKind.chrome, r)) ∧
    (mb.chromeOk = false → mb.firefoxOk = true →
      ∃ r, res = some (EngineKind.firefox, r)) ∧
    (ec = 0 ∨ ec = 1) := by
  unfold mainRun acquireEngine at h
  cases hc : mb.chromeOk with
  | true =>
    rw [hc, if_pos rfl] at h
    cases hs : scrape_avif_images mb.run fuel with
    | none => rw [hs] at h; cases h
    | some r =>
      rw [hs] at h
      cases h
      refine ⟨by simp [hc], fun _ => ⟨r, rfl⟩, fun h1 h2 => ?_, Or.inl rfl⟩
      cases h1
  | false =>
    rw [hc, if_neg (by simp)] at h
    cases hf : mb.firefoxOk with
    | true =>
      rw [hf, if_pos rfl] at h
      cases hs : scrape_avif_images mb.run fuel with
      | none => rw [hs] at h; cases h
      | some r =>
        rw [hs] at h
        cases h
        refine ⟨by simp [hf], fun h1 => ?_, fun _ _ => ⟨r, rfl⟩, Or.inl rfl⟩
        cases h1
    | false =>
      rw [hf, if_neg (by simp)] at h
      cases h
      refine ⟨by simp [hc, hf], fun h1 => ?_, fun _ h2 => ?_, Or.inr rfl⟩
      · cases h1
      · cases h2

/-- Witness for C7: Chrome unavailable, Firefox available — the run uses
Firefox and exits 0 with an empty find. -/
theorem c7_witness :
    mainRun mbFallback 10
        = some (0, some (EngineKind.firefox, ⟨[], 1, false⟩)) ∧
    ((0 = 1 ↔ mbFallback.chromeOk = false ∧ mbFallback.firefoxOk = false) ∧
      (mbFallback.chromeOk = true →
        ∃ r, (some (EngineKind.firefox, (⟨[], 1, false⟩ : RunResult))
            : Option (EngineKind × RunResult)) = some (EngineKind.chrome, r)) ∧
      (mbFallback.chromeOk = false → mbFallback.firefoxOk = true →
        ∃ r, (some (EngineKind.firefox, (⟨[], 1, false⟩ : RunResult))
            : Option (EngineKind × RunResult)) = some (EngineKind.firefox, r)) ∧
      ((0 : Nat) = 0 ∨ (0 : Nat) = 1)) :=
  ⟨by decide,
    c7_engine_fallback mbFallback 10 0
      (some (EngineKind.firefox, ⟨[], 1, false⟩)) (by decide)⟩

/-- Counterexample to claim C8 as stated: against `bottomPages` the loop runs
3 iterations, but the trace holds only 2 bottom checks — the final iteration
exits through the no-growth `break` before reaching the bottom check, so the
check does not happen in every loop iteration. -/
theorem c8_counterexample :
    runLoop bottomPages st0 0 10 = some (⟨[], 0, 3⟩, 3, evC8) ∧
    evC8.count (Event.checkBottom true) + evC8.count (Event.checkBottom false) = 2 ∧
    (2 : Nat) ≠ 3 := by decide

/-- Claim C8 (amended): in every completed run every iteration except the
final one — which exits through the no-growth `break` and skips the check —
checks whether the viewport is within 10 pixels of the document bottom and,
when it is, performs one extra sleep-1 / scroll / sleep-2 cycle before the
loop continues; this is the trace `traceFrom` built from `iterEvents`. -/
theorem c8_bottom_check (pages : Nat → Pass) (fuel : Nat) (st : St) (n : Nat)
    (evs : List Event) (h : runLoop pages st0 0 fuel = some (st, n, evs)) :
    evs = traceFrom pages 0 n ∧ 1 ≤ n ∧
      st.scroll_attempts = no_new_images_threshold := by
  have ht := runLoop_trace pages fuel st0 0 st n evs (by decide) h
  rwa [Nat.sub_zero] at ht

/-- Witness for C8: the 3-iteration run against `bottomPages` has the trace
`traceFrom bottomPages 0 3` — two full iterations with bottom checks and
extra cycles, then the breaking iteration without a check. -/
theorem c8_witness :
    runLoop bottomPages st0 0 10 = some (⟨[], 0, 3⟩, 3, evC8) ∧
    (evC8 = traceFrom bottomPages 0 3 ∧ 1 ≤ 3 ∧
      (⟨[], 0, 3⟩ : St).scroll_attempts = no_new_images_threshold) :=
  ⟨by decide, c8_bottom_check bottomPages 10 ⟨[], 0, 3⟩ 3 evC8 (by decide)⟩

/-- Claim C10: every URL in the final collection of any completed run
contains the extension marker `.avif`, because both scans only ever add
strings containing it. -/
theorem c10_all_contain_marker (pages : Nat → Pass) (fuel : Nat) (st : St)
    (n : Nat) (evs : List Event)
    (h : runLoop pages st0 0 fuel = some (st, n, evs)) :
    ∀ u ∈ st.image_urls, strContains avif u = true := by
  have hs := (runLoop_sound pages fuel 0 st n evs h).1
  rw [hs]
  exact statesFn_avif pages n

/-- Witness for C10: in the completed run against `w4pages` the collected
URL `a.avif` contains the marker. -/
theorem c10_witness :
    runLoop w4pages st0 0 5
        = some (⟨[("a.avif"), ("b.avif")], 2, 3⟩, 5, evC2) ∧
    ("a.avif") ∈ (⟨[("a.avif"), ("b.avif")], 2, 3⟩ : St).image_urls ∧
    strContains avif ("a.avif") = true :=
  ⟨by decide, by decide,
    c10_all_contain_marker w4pages 5 ⟨[("a.avif"), ("b.avif")], 2, 3⟩ 5 evC2
      (by decide) ("a.avif") (by decide)⟩
